import Mathlib

/-!
Shallow embedding of the napalm-brocade-fastiron driver
(src/napalm_brocade_fastiron/brocade_fastiron.py) in Lean 4.

Raw device output is modelled as a list of characters (`Str`), so every
Python string primitive the driver uses (`splitlines`, whitespace `split`,
slicing, `in`-containment, `int`/`float` conversion, `str.replace`) is given
an explicit executable Lean counterpart.  Python exceptions are modelled
with `Except Str`: a `.error` value corresponds to the method raising.
Python `float` values that the driver produces (ARP ages, last-flap times)
are modelled as rationals; the device fields involved are plain decimal
literals, so exponent/inf/nan forms of Python `float()` are not modelled.

External collaborators that are not part of this repository
(napalm_base.helpers.mac, netaddr.IPNetwork, the netmiko transport) are
modelled from the spec where the driver calls them; the transport is passed
in as an explicit oracle function from command text to output text.
-/

deriving instance DecidableEq for Except

namespace Fastiron

abbrev Str := List Char

/-- Characters Python `str.split()` and `str.strip()` treat as whitespace. -/
def pyIsSpace (c : Char) : Bool :=
  c = ' ' || c = '\t' || c = '\n' || c = '\r' || c = '\x0b' || c = '\x0c'

/-- Auxiliary for Python `str.split()` with no argument: `acc` holds the
current (reversed) run of non-whitespace characters. -/
def splitWsAux : Str → Str → List Str
  | [], [] => []
  | [], acc => [acc.reverse]
  | c :: cs, acc =>
    if pyIsSpace c then
      match acc with
      | [] => splitWsAux cs []
      | _ => acc.reverse :: splitWsAux cs []
    else splitWsAux cs (c :: acc)

/-- Python `s.split()`: split on runs of whitespace, dropping empty fields. -/
def pySplitWs (s : Str) : List Str := splitWsAux s []

/-- Auxiliary for Python `str.splitlines()`: terminators are `\n`, `\r\n`
and `\r`; a trailing terminator does not yield a final empty line. -/
def splitlinesGo : Str → Str → List Str
  | [], [] => []
  | [], acc => [acc.reverse]
  | '\n' :: cs, acc => acc.reverse :: splitlinesGo cs []
  | '\r' :: '\n' :: cs, acc => acc.reverse :: splitlinesGo cs []
  | '\r' :: cs, acc => acc.reverse :: splitlinesGo cs []
  | c :: cs, acc => splitlinesGo cs (c :: acc)

/-- Python `s.splitlines()`. -/
def splitlines (s : Str) : List Str := splitlinesGo s []

/-- Auxiliary for Python `s.split(sep)` with a one-character separator:
keeps empty fields, including a trailing one. -/
def splitCharAux (sep : Char) : Str → Str → List Str
  | [], acc => [acc.reverse]
  | c :: cs, acc =>
    if c = sep then acc.reverse :: splitCharAux sep cs []
    else splitCharAux sep cs (c :: acc)

/-- Python `s.split(sep)` for a one-character separator `sep`. -/
def splitChar (sep : Char) (s : Str) : List Str := splitCharAux sep s []

/-- Maximal-munch split of a leading run of decimal digits (the `\d+` of the
driver regexes) from the rest of the string. -/
def takeDigits : Str → Str × Str
  | [] => ([], [])
  | c :: cs =>
    if c.isDigit then
      let p := takeDigits cs
      (c :: p.1, p.2)
    else ([], c :: cs)

/-- Numeric value of a string of decimal digits. -/
def digitsVal (ds : Str) : Nat :=
  ds.foldl (fun n c => n * 10 + (c.toNat - 48)) 0

/-- Python `s.strip()`. -/
def pyStrip (s : Str) : Str :=
  ((s.dropWhile pyIsSpace).reverse.dropWhile pyIsSpace).reverse

/-- Value of a digit string, or `none` if it is empty or not all digits. -/
def digitsValOpt (ds : Str) : Option Nat :=
  if !ds.isEmpty && ds.all Char.isDigit then some (digitsVal ds) else none

/-- Python `int(s)` after stripping: an optional sign followed by digits. -/
def pyIntCore : Str → Option Int
  | [] => none
  | c :: cs =>
    if c = '-' then (digitsValOpt cs).map (fun n => -(n : Int))
    else if c = '+' then (digitsValOpt cs).map (fun n => (n : Int))
    else (digitsValOpt (c :: cs)).map (fun n => (n : Int))

/-- Python `int(s)` on a decimal string (underscore separators not modelled). -/
def pyInt (s : Str) : Option Int := pyIntCore (pyStrip s)

/-- Python `float(s)` on an unsigned decimal string: digits with an optional
fractional part.  The result is modelled as a rational. -/
def pyFloatCore (u : Str) : Option ℚ :=
  let p := takeDigits u
  match p.2 with
  | [] => if p.1.isEmpty then none else some (digitsVal p.1 : ℚ)
  | c :: r2 =>
    if c = '.' then
      let q := takeDigits r2
      if q.2.isEmpty && !(p.1.isEmpty && q.1.isEmpty) then
        some ((digitsVal p.1 : ℚ) + (digitsVal q.1 : ℚ) / ((10 : ℚ) ^ q.1.length))
      else none
    else none

/-- Python `float(s)` on decimal notation, modelled as a rational
(exponent, inf and nan forms are not modelled; the device age fields this
is applied to are plain decimals). -/
def pyFloat (s : Str) : Option ℚ :=
  match pyStrip s with
  | '-' :: r => (pyFloatCore r).map (fun q => -q)
  | '+' :: r => pyFloatCore r
  | r => pyFloatCore r

/-- Python substring containment `needle in hay`. -/
def containsSub (needle hay : Str) : Bool :=
  match hay with
  | [] => needle.isEmpty
  | _ :: t => needle.isPrefixOf hay || containsSub needle t

/-- Python `s.lower()` (ASCII case folding suffices for device output). -/
def lowerStr (s : Str) : Str := s.map Char.toLower

/-- Auxiliary for `replaceAll`, structurally recursive on a fuel argument so
that it evaluates by kernel reduction; the fuel is the input length, which
bounds the number of steps, so the fuel-exhausted branch is unreachable. -/
def replaceGo (ph : Char) (pt rep : Str) : Nat → Str → Str
  | _, [] => []
  | 0, s => s
  | fuel + 1, c :: cs =>
    if (ph :: pt).isPrefixOf (c :: cs) then rep ++ replaceGo ph pt rep fuel (cs.drop pt.length)
    else c :: replaceGo ph pt rep fuel cs

/-- Python `s.replace(pat, rep)` for a non-empty pattern `ph :: pt`:
replaces every non-overlapping occurrence, left to right. -/
def replaceAll (ph : Char) (pt rep s : Str) : Str := replaceGo ph pt rep s.length s

/-- Python `dict` assignment `d[k] = v`: overwrite in place if the key is
present (keeping its position, as Python dicts keep insertion order),
otherwise append a new entry. -/
def dictSet {α β : Type} [DecidableEq α] (k : α) (v : β) : List (α × β) → List (α × β)
  | [] => [(k, v)]
  | (k', v') :: rest => if k' = k then (k, v) :: rest else (k', v') :: dictSet k v rest

/-- Python `dict` lookup `d.get(k)`. -/
def dictGet {α β : Type} [DecidableEq α] (k : α) : List (α × β) → Option β
  | [] => none
  | (k', v') :: rest => if k' = k then some v' else dictGet k rest

/-- Pair up the characters of a hex-digit string. -/
def chunk2 : Str → List Str
  | a :: b :: rest => [a, b] :: chunk2 rest
  | [a] => [[a]]
  | [] => []

/-- Join strings with a colon separator. -/
def joinColon : List Str → Str
  | [] => []
  | [x] => x
  | x :: xs => x ++ ':' :: joinColon xs

/-- Hexadecimal digit characters. -/
def isHexChar (c : Char) : Bool :=
  c.isDigit || ('a' ≤ c && c ≤ 'f') || ('A' ≤ c && c ≤ 'F')

/-- Modelled from the spec: the external `napalm_base.helpers.mac`
collaborator (not part of this repository), which accepts vendor-formatted
hex groups and emits canonical lower-case colon-separated hex, e.g.
`1122.3344.5566` to `11:22:33:44:55:66`. -/
def helpersMac (s : Str) : Str :=
  joinColon (chunk2 ((s.filter isHexChar).map Char.toLower))

/-! ## Version gate: `_get_os_version` (brocade_fastiron.py lines 100-107)

The Python is
`self._os_version = int(output.splitlines()[0].split()[2].split('.')[0])`;
the transport output is the function argument.  Out-of-range indexing and a
failed `int()` conversion are the only failure paths; the parsed integer is
cached without any further validation. -/

def getOsVersion (raw : Str) : Except Str Int :=
  match splitlines raw with
  | [] => Except.error "IndexError: list index out of range".data
  | l0 :: _ =>
    match pySplitWs l0 with
    | _ :: _ :: t2 :: _ =>
      match pyInt (t2.takeWhile (fun c => c != '.')) with
      | some v => Except.ok v
      | none => Except.error "ValueError: invalid literal for int".data
    | _ => Except.error "IndexError: list index out of range".data

/-! ## `cli` (brocade_fastiron.py lines 132-145)

`device` is the transport oracle: `device.send_command(cmd)`'s output for
each command.  The Python accumulates `cli_output` imperatively and raising
discards it, so the fold carries the dict and an error replaces it. -/

def cliFold (device : Str → Str) (acc : List (Str × Str)) : List Str → Except Str (List (Str × Str))
  | [] => Except.ok acc
  | c :: cs =>
    let output := device c
    if containsSub "Invalid input".data output then
      Except.error ("Unable to execute command \"".data ++ c ++ "\"".data)
    else cliFold device (dictSet c output acc) cs

def cli (device : Str → Str) (commands : List Str) : Except Str (List (Str × Str)) :=
  cliFold device [] commands

/-! ## `load_merge_candidate` / `commit_config` (lines 164-182) -/

/-- The `config` argument of `load_merge_candidate` may be a Python list of
lines or a single string. -/
inductive ConfigArg
  | strArg (s : Str)
  | lstArg (l : List Str)

/-- Python truthiness of the optional `filename` argument. -/
def truthyOptStr : Option Str → Bool
  | none => false
  | some s => !s.isEmpty

/-- Python truthiness of the optional `config` argument. -/
def truthyCfg : Option ConfigArg → Bool
  | none => false
  | some (ConfigArg.strArg s) => !s.isEmpty
  | some (ConfigArg.lstArg l) => !l.isEmpty

/-- Python `filter(None, (l.strip() for l in lines))`. -/
def stripFilter (lines : List Str) : List Str :=
  (lines.map pyStrip).filter (fun l => !l.isEmpty)

/-- Embedding of `load_merge_candidate`.  `fileLines` is the file-system
oracle giving the lines of `filename`; `mergeCfg` is the current
`self._merge_cfg`, and the result is its new value.  The method performs no
device interaction at all: raising on `filename and config` happens before
anything else. -/
def load_merge_candidate (fileLines : Str → List Str) (mergeCfg : Option (List Str))
    (filename : Option Str) (config : Option ConfigArg) : Except Str (Option (List Str)) :=
  if truthyOptStr filename && truthyCfg config then
    Except.error "Cannot simultaneously set filename and config".data
  else
    let m1 := if truthyOptStr filename then
        some (stripFilter (fileLines (filename.getD []))) else mergeCfg
    let m2 := match config with
      | some (ConfigArg.lstArg l) => if !l.isEmpty then some (stripFilter l) else m1
      | some (ConfigArg.strArg s) => if !s.isEmpty then some (stripFilter (splitlines s)) else m1
      | none => m1
    Except.ok m2

/-- Device interactions performed by `commit_config`. -/
inductive DeviceAction
  | sendConfigSet (cfg : Option (List Str))
  | sendCommand (cmd : Str)
deriving DecidableEq

/-- Embedding of `commit_config`: it unconditionally forwards the staged
candidate (`self._merge_cfg`, possibly the initial `None`) to
`device.send_config_set` and then issues `write memory`; it performs no
staging check of its own and has no raising path, which the `Except`
result type makes explicit. -/
def commit_config (mergeCfg : Option (List Str)) : Except Str (List DeviceAction) :=
  Except.ok [DeviceAction.sendConfigSet mergeCfg, DeviceAction.sendCommand "write memory".data]

/-! ## `_calc_speed` (lines 246-252)

The Python reads `unit = speed[-4]` (IndexError when the token is shorter
than four characters) and converts `int(speed[:-4])` in both branches. -/

def calcSpeed (speed : Str) : Except Str Int :=
  if speed.length < 4 then Except.error "IndexError: string index out of range".data
  else
    let unit := speed.getD (speed.length - 4) ' '
    match pyInt (speed.take (speed.length - 4)) with
    | none => Except.error "ValueError: invalid literal for int".data
    | some n => Except.ok (if unit = 'M' then n else n * 1000)

/-! ## `_parse_port_change` (lines 222-244)

Each unit is extracted by `re.search('(\d+) <unit>', string)`: the scan
tries every start position left to right; at a position it takes the
maximal run of digits (non-empty) and requires the unit literal to follow.
`scanUnit` returns the first such capture. -/

def scanUnit (unit : Str) : Str → Option Str
  | [] => none
  | c :: cs =>
    let p := takeDigits (c :: cs)
    if !p.1.isEmpty && unit.isPrefixOf p.2 then some p.1
    else scanUnit unit cs

def parsePortChange (s : Str) : Int :=
  let days := ((scanUnit " days".data s).map digitsVal).getD 0
  let hours := ((scanUnit " hours".data s).map digitsVal).getD 0
  let mins := ((scanUnit " minutes".data s).map digitsVal).getD 0
  let secs := ((scanUnit " seconds".data s).map digitsVal).getD 0
  let t : Int := (secs : Int) + (mins : Int) * 60 + (hours : Int) * 60 * 60 + (days : Int) * 24 * 60 * 60
  if t = 0 then -1 else t

/-! ## `_get_detailed_counters` (lines 344-389)

The counter regexes all have the shapes `lit1\s+(\d+)\s+lit2\s+(\d+)` or
`lit\s+(\d+)`; `re.search` tries each start position left to right.  The
captured groups are stored in the counters dict as the digit strings the
Python code stores (it never converts them to `int`). -/

/-- Match `\s+` (one or more whitespace characters, maximal) at the front. -/
def takeWs1 : Str → Option Str
  | [] => none
  | c :: cs => if pyIsSpace c then some (cs.dropWhile pyIsSpace) else none

/-- Match `lit1\s+(\d+)\s+lit2\s+(\d+)` anchored at the front. -/
def matchPairHere (lit1 lit2 s : Str) : Option (Str × Str) :=
  if lit1.isPrefixOf s then
    match takeWs1 (s.drop lit1.length) with
    | none => none
    | some s2 =>
      let p := takeDigits s2
      if p.1.isEmpty then none else
      match takeWs1 p.2 with
      | none => none
      | some s4 =>
        if lit2.isPrefixOf s4 then
          match takeWs1 (s4.drop lit2.length) with
          | none => none
          | some s6 =>
            let q := takeDigits s6
            if q.1.isEmpty then none else some (p.1, q.1)
        else none
  else none

/-- `re.search` for the two-capture counter pattern. -/
def searchPair (lit1 lit2 : Str) : Str → Option (Str × Str)
  | [] => matchPairHere lit1 lit2 []
  | c :: t =>
    match matchPairHere lit1 lit2 (c :: t) with
    | some r => some r
    | none => searchPair lit1 lit2 t

/-- Match `lit\s+(\d+)` anchored at the front. -/
def matchSingleHere (lit s : Str) : Option Str :=
  if lit.isPrefixOf s then
    match takeWs1 (s.drop lit.length) with
    | none => none
    | some s2 =>
      let p := takeDigits s2
      if p.1.isEmpty then none else some p.1
  else none

/-- `re.search` for the one-capture counter pattern. -/
def searchSingle (lit : Str) : Str → Option Str
  | [] => matchSingleHere lit []
  | c :: t =>
    match matchSingleHere lit (c :: t) with
    | some r => some r
    | none => searchSingle lit t

/-- Embedding of `_get_detailed_counters` applied to the device output for
one port.  Note the source's unicast block assigns `rx_unicast_packets`
twice (first `group(1)`, then `group(2)`) and never assigns
`tx_unicast_packets`; the embedding reproduces those two assignments
verbatim. -/
def getDetailedCounters (output : Str) : List (Str × Str) :=
  let d : List (Str × Str) := []
  let d := match searchPair "InOctets".data "OutOctets".data output with
    | some r => dictSet "tx_octets".data r.2 (dictSet "rx_octets".data r.1 d)
    | none => d
  let d := match searchPair "InUnicastPkts".data "OutUnicastPkts".data output with
    | some r => dictSet "rx_unicast_packets".data r.2 (dictSet "rx_unicast_packets".data r.1 d)
    | none => d
  let d := match searchPair "InMulticastPkts".data "OutMulticastPkts".data output with
    | some r => dictSet "tx_multicast_packets".data r.2 (dictSet "rx_multicast_packets".data r.1 d)
    | none => d
  let d := match searchPair "InBroadcastPkts".data "OutBroadcastPkts".data output with
    | some r => dictSet "tx_broadcast_packets".data r.2 (dictSet "rx_broadcast_packets".data r.1 d)
    | none => d
  let d := match searchSingle "InDiscards".data output with
    | some g => dictSet "rx_discards".data g d
    | none => d
  let d := match searchSingle "OutErrors".data output with
    | some g => dictSet "tx_errors".data g d
    | none => d
  let d := match searchSingle "InErrors".data output with
    | some g => dictSet "rx_errors".data g d
    | none => d
  d

/-! ## `get_arp_table` (lines 184-220) -/

structure ArpEntry where
  interface : Str
  mac : Str
  ip : Str
  age : ℚ
deriving DecidableEq

/-- Processing of one ARP output line once whitespace-split: `none` when the
field count is not 7 (the line is skipped); otherwise the entry, or the
`ValueError` the source raises when `float(age)` fails. -/
def arpStep (fields : List Str) : Option (Except Str ArpEntry) :=
  match fields with
  | [_num, address, macF, _typ, ageF, intf, _state] =>
    some (match pyFloat ageF with
      | none => Except.error ("Unable to convert age value to float: ".data ++ ageF)
      | some age =>
        Except.ok
          { interface := intf
            mac := if containsSub "None".data macF then
                helpersMac "00:00:00:00:00:00".data
              else helpersMac macF
            ip := address
            age := age })
  | _ => none

/-- The per-line loop of `get_arp_table`. -/
def arpLines : List Str → Except Str (List ArpEntry)
  | [] => Except.ok []
  | l :: ls =>
    match arpStep (pySplitWs l) with
    | none => arpLines ls
    | some (Except.error e) => Except.error e
    | some (Except.ok entry) => (arpLines ls).map (fun rest => entry :: rest)

/-- Embedding of `get_arp_table`: the version-dependent header skip is the
source's pair of sequential `if` statements, followed by the line loop. -/
def getArpTable (ver : Int) (raw : Str) : Except Str (List ArpEntry) :=
  let output := splitlines raw
  let output := if ver = 7 then output.drop 2 else output
  let output := if ver = 8 then output.drop 3 else output
  arpLines output

/-! ## `get_mac_address_table` (lines 484-513)

The file defines `get_mac_address_table` twice; in Python the later
definition (the 4-field variant using `split('\n')` and `lines[2:]`) is the
one the class ends up with, so that is the one embedded. -/

structure MacTableEntry where
  mac : Str
  interface : Str
  vlan : Int
  active : Bool
  static : Bool
  moves : Int
  last_move : ℚ
deriving DecidableEq

/-- Processing of one MAC-table line once whitespace-split: `none` when the
field count is not 4; otherwise the entry, or the `ValueError` raised by
`int(vlan)`. -/
def macStep (fields : List Str) : Option (Except Str MacTableEntry) :=
  match fields with
  | [macF, port, typ, vlanF] =>
    some (match pyInt vlanF with
      | none => Except.error ("invalid literal for int: ".data ++ vlanF)
      | some vlan =>
        Except.ok
          { mac := helpersMac macF
            interface := port
            vlan := vlan
            active := true
            static := !containsSub "Dynamic".data typ
            moves := -1
            last_move := -1 })
  | _ => none

/-- The per-line loop of `get_mac_address_table`. -/
def macLines : List Str → Except Str (List MacTableEntry)
  | [] => Except.ok []
  | l :: ls =>
    match macStep (pySplitWs l) with
    | none => macLines ls
    | some (Except.error e) => Except.error e
    | some (Except.ok entry) => (macLines ls).map (fun rest => entry :: rest)

/-- Embedding of `get_mac_address_table`: `split('\n')` (which keeps a
trailing empty field) and a fixed 2-line header skip, then the line loop. -/
def getMacAddressTable (raw : Str) : Except Str (List MacTableEntry) :=
  macLines ((splitChar '\n' raw).drop 2)

/-! ## `get_interfaces` (lines 297-342)

`_get_interface_details` and `_get_logical_interface_detail` each issue a
further device round trip and regex-scrape it; they are passed in as oracle
functions returning the `[last_flap, description, speed]` triple, since the
claims about `get_interfaces` concern only its own line handling.  A
non-empty, non-header line is unpacked as `port, link, state = fields[:3]`
(a `ValueError` when there are fewer than 3 fields) and then indexed at
`fields[4]` and `fields[9]` (an `IndexError` when there are fewer than 5 or
10 fields): `get_interfaces` performs no field-count guard of its own. -/

structure InterfaceRecord where
  is_up : Bool
  is_enabled : Bool
  description : Str
  last_flapped : ℚ
  speed : Int
  mac_address : Str
deriving DecidableEq

/-- `re.match('(\d+/\d+)', port)`: digits, a slash, digits, at the start. -/
def matchPhysical (port : Str) : Bool :=
  let p := takeDigits port
  match p.2 with
  | '/' :: r2 => !p.1.isEmpty && !(takeDigits r2).1.isEmpty
  | _ => false

/-- `re.match('(ve|lb|mgmt)\d+', port)`: one of the logical prefixes
followed by at least one digit, at the start. -/
def matchLogical (port : Str) : Bool :=
  let check := fun (p : Str) =>
    p.isPrefixOf port && !(takeDigits (port.drop p.length)).1.isEmpty
  check "ve".data || check "lb".data || check "mgmt".data

/-- Record built for one interface line from the detail triple
`(last_flap, description, speed)` and the normalized MAC. -/
def mkIfRecord (up enabled : Bool) (det : Int × Str × Int) (mac : Str) : InterfaceRecord :=
  { is_up := up
    is_enabled := enabled
    description := det.2.1
    last_flapped := (det.1 : ℚ)
    speed := det.2.2
    mac_address := mac }

/-- The per-line loop of `get_interfaces`, carrying the `interface_list`
dict; `details` and `ldetails` are the physical/management and logical
detail oracles. -/
def interfacesFold (details ldetails : Str → Int × Str × Int)
    (acc : List (Str × InterfaceRecord)) :
    List Str → Except Str (List (Str × InterfaceRecord))
  | [] => Except.ok acc
  | l :: ls =>
    let fields := pySplitWs l
    match fields with
    | [] => interfacesFold details ldetails acc ls
    | f0 :: _ =>
      if f0 = "Port".data then interfacesFold details ldetails acc ls
      else if fields.length < 3 then
        Except.error "ValueError: not enough values to unpack".data
      else if fields.length < 5 then
        Except.error "IndexError: list index out of range".data
      else if fields.length < 10 then
        Except.error "IndexError: list index out of range".data
      else
        let port := f0
        let link := fields.getD 1 []
        let state := fields.getD 2 []
        let mac0 := fields.getD 9 []
        let mac := if !containsSub "N/A".data mac0 then helpersMac mac0 else mac0
        if matchPhysical port then
          let up := containsSub "forward".data (lowerStr state)
          let enabled := !containsSub "disable".data (lowerStr link)
          interfacesFold details ldetails
            (dictSet port (mkIfRecord up enabled (details port) mac) acc) ls
        else if matchLogical port then
          let enabled := !containsSub "down".data (lowerStr link)
          let det := if containsSub "mgmt".data port then details port else ldetails port
          interfacesFold details ldetails
            (dictSet port (mkIfRecord enabled enabled det mac) acc) ls
        else interfacesFold details ldetails acc ls

/-- Embedding of `get_interfaces`. -/
def getInterfaces (details ldetails : Str → Int × Str × Int) (raw : Str) :
    Except Str (List (Str × InterfaceRecord)) :=
  interfacesFold details ldetails [] (splitlines raw)

/-- A trivial detail oracle used to instantiate `getInterfaces` at concrete
inputs (the source's defaults: no flap data, empty description, 1000). -/
def constDetails : Str → Int × Str × Int := fun _ => (-1, [], 1000)

/-! ## `get_interfaces_ip` (lines 434-464) -/

/-- Maximal-munch split of a leading `\S+` run from the rest. -/
def takeNonWs : Str → Str × Str
  | [] => ([], [])
  | c :: cs =>
    if pyIsSpace c then ([], c :: cs)
    else
      let p := takeNonWs cs
      (c :: p.1, p.2)

/-- `re.match('interface\s(\S+)\s(\S+)', line)`: the literal `interface`,
exactly one whitespace character, a non-empty non-whitespace group, again
one whitespace character and a second group. -/
def ifaceHeaderMatch (l : Str) : Option (Str × Str) :=
  if "interface".data.isPrefixOf l then
    match l.drop 9 with
    | c :: r1 =>
      if pyIsSpace c then
        let p := takeNonWs r1
        if p.1.isEmpty then none else
        match p.2 with
        | c2 :: r3 =>
          if pyIsSpace c2 then
            let q := takeNonWs r3
            if q.1.isEmpty then none else some (p.1, q.1)
          else none
        | [] => none
      else none
    | [] => none
  else none

/-- `re.search('^\s(ip|ipv6) address (.*)', line)`: anchored at the line
start, one whitespace character, `ip` or `ipv6`, the literal ` address `
and the captured remainder. -/
def addrLineMatch (l : Str) : Option Str :=
  match l with
  | c :: r =>
    if pyIsSpace c then
      if "ip address ".data.isPrefixOf r then some (r.drop 11)
      else if "ipv6 address ".data.isPrefixOf r then some (r.drop 13)
      else none
    else none
  | [] => none

/-- Result of the external `netaddr.IPNetwork` collaborator. -/
structure IpNet where
  version : Nat
  addr : Str
  prefixlen : Nat
deriving DecidableEq

/-- Number of set bits, used for dotted netmask to prefix length. -/
def popcount (n : Nat) : Nat := (Nat.toDigits 2 n).count '1'

/-- Prefix length of a dotted-quad netmask. -/
def maskBits (m : Str) : Option Nat :=
  let parts := splitChar '.' m
  if parts.length = 4 && parts.all (fun p => !p.isEmpty && p.all Char.isDigit) then
    some ((parts.map (fun p => popcount (digitsVal p))).sum)
  else none

/-- Modelled from the spec: the external `netaddr.IPNetwork` collaborator
(not part of this repository).  It classifies the address family (a colon
means IPv6), splits off the prefix length (given either as a decimal or as
a dotted-quad netmask; absent means a host route) and exposes the address
part (`str(ip.ip)`; netaddr's renormalization of already-normal addresses
is the identity and is not modelled further) and `prefixlen`. -/
def IPNetwork (s : Str) : Except Str IpNet :=
  let ver : Nat := if s.contains ':' then 6 else 4
  match splitChar '/' s with
  | [a] => Except.ok ⟨ver, a, if ver = 6 then 128 else 32⟩
  | [a, b] =>
    if !b.isEmpty && b.all Char.isDigit then Except.ok ⟨ver, a, digitsVal b⟩
    else
      match maskBits b with
      | some n => Except.ok ⟨ver, a, n⟩
      | none => Except.error "AddrFormatError".data
  | _ => Except.error "AddrFormatError".data

/-- The nested result dict of `get_interfaces_ip`:
port to family (`ipv4`/`ipv6`) to address string to prefix length (the
innermost Python dict holds the single key `prefix_length`). -/
abbrev IpDict := List (Str × List (Str × List (Str × Nat)))

instance decEqIpFam : DecidableEq (List (Str × List (Str × Nat))) :=
  inferInstance

instance decEqIpDict : DecidableEq IpDict :=
  inferInstance

/-- The nested-dict update
`interfaces[port][ver][str(ip.ip)] = {'prefix_length': ip.prefixlen}`,
creating the intermediate dicts when absent exactly as the source does. -/
def nestedSet (port ver addr : Str) (plen : Nat) (d : IpDict) : IpDict :=
  let fam := (dictGet port d).getD []
  let amap := (dictGet ver fam).getD []
  dictSet port (dictSet ver (dictSet addr plen amap) fam) d

/-- The port-name normalization applied to a matched interface header. -/
def normalizePort (g1 g2 : Str) : Str :=
  let port := g1 ++ g2
  let port := replaceAll 'e' "thernet".data [] port
  let port := replaceAll 'l' "oopback".data "lb".data port
  let port := replaceAll 'm' "anagement".data "mgmt".data port
  replaceAll 'v' "e".data "v".data port

/-- The scan of `get_interfaces_ip` over the running-config lines.  The
`port` context variable starts unassigned (`none`); the source reads it on
every address line, so an address line seen while it is still unassigned
raises `UnboundLocalError`. -/
def ipFold (port : Option Str) (acc : IpDict) : List Str → Except Str IpDict
  | [] => Except.ok acc
  | l :: ls =>
    match ifaceHeaderMatch l with
    | some g => ipFold (some (normalizePort g.1 g.2)) acc ls
    | none =>
      match addrLineMatch l with
      | none => ipFold port acc ls
      | some g2 =>
        let ipStr := replaceAll ' ' [] "/".data (replaceAll ' ' "dynamic".data [] g2)
        match IPNetwork ipStr with
        | Except.error e => Except.error e
        | Except.ok net =>
          let ver := if net.version = 6 then "ipv6".data else "ipv4".data
          match port with
          | none =>
            Except.error "UnboundLocalError: local variable port referenced before assignment".data
          | some p => ipFold port (nestedSet p ver net.addr net.prefixlen acc) ls

/-- Embedding of `get_interfaces_ip`, applied to the running-config text. -/
def getInterfacesIp (config : Str) : Except Str IpDict :=
  ipFold none [] (splitlines config)

/-! ## Supporting lemmas -/

theorem digit_toNat {c : Char} (h : c.isDigit = true) : 48 ≤ c.toNat ∧ c.toNat ≤ 57 := by
  simp only [Char.isDigit, Bool.and_eq_true, decide_eq_true_eq] at h
  obtain ⟨h1, h2⟩ := h
  exact ⟨h1, h2⟩

theorem digit_ne {c d : Char} (h : c.isDigit = true) (hd : d.isDigit = false) : c ≠ d := by
  intro he
  subst he
  rw [h] at hd
  cases hd

theorem digit_not_space {c : Char} (h : c.isDigit = true) : pyIsSpace c = false := by
  obtain ⟨h1, h2⟩ := digit_toNat h
  simp only [pyIsSpace, Bool.or_eq_false_iff, decide_eq_false_iff_not]
  refine ⟨⟨⟨⟨⟨?_, ?_⟩, ?_⟩, ?_⟩, ?_⟩, ?_⟩ <;>
    · intro he; subst he; simp_all

theorem splitlinesGo_nil_cons (a : Char) (acc : Str) :
    splitlinesGo [] (a :: acc) = [(a :: acc).reverse] := rfl

theorem splitlinesGo_cons_other {c : Char} (h1 : c ≠ '\n') (h2 : c ≠ '\r') (cs acc : Str) :
    splitlinesGo (c :: cs) acc = splitlinesGo cs (c :: acc) := by
  rw [splitlinesGo.eq_def]
  split <;> simp_all

theorem splitlinesGo_noNl : ∀ (s : Str), (∀ c ∈ s, c ≠ '\n' ∧ c ≠ '\r') → s ≠ [] →
    ∀ acc, splitlinesGo s acc = [acc.reverse ++ s] := by
  intro s
  induction s with
  | nil => intro _ hne; cases hne rfl
  | cons c cs ih =>
    intro h _ acc
    obtain ⟨hc1, hc2⟩ := h c (by simp)
    rw [splitlinesGo_cons_other hc1 hc2]
    rcases Decidable.em (cs = []) with hcs | hcs
    · subst hcs
      simp [splitlinesGo_nil_cons]
    · rw [ih (fun x hx => h x (by simp [hx])) hcs (c :: acc)]
      simp

/-- A line without newline characters splits into itself alone. -/
theorem splitlines_noNl {s : Str} (h : ∀ c ∈ s, c ≠ '\n' ∧ c ≠ '\r') (hne : s ≠ []) :
    splitlines s = [s] := by
  rw [splitlines, splitlinesGo_noNl s h hne []]
  simp

theorem splitWsAux_cons_nonspace {c : Char} (hc : pyIsSpace c = false) (cs acc : Str) :
    splitWsAux (c :: cs) acc = splitWsAux cs (c :: acc) := by
  simp [splitWsAux, hc]

theorem splitWsAux_nonWs : ∀ (s : Str), (∀ c ∈ s, pyIsSpace c = false) → s ≠ [] →
    ∀ acc, splitWsAux s acc = [acc.reverse ++ s] := by
  intro s
  induction s with
  | nil => intro _ hne; cases hne rfl
  | cons c cs ih =>
    intro h _ acc
    rw [splitWsAux_cons_nonspace (h c (by simp))]
    rcases Decidable.em (cs = []) with hcs | hcs
    · subst hcs
      simp [splitWsAux]
    · rw [ih (fun x hx => h x (by simp [hx])) hcs (c :: acc)]
      simp

/-- Digits followed by a non-digit boundary split exactly at the boundary. -/
theorem takeDigits_append : ∀ (ds : Str), (∀ c ∈ ds, c.isDigit = true) →
    ∀ (r : Str), (r = [] ∨ ∃ c cs, r = c :: cs ∧ c.isDigit = false) →
    takeDigits (ds ++ r) = (ds, r) := by
  intro ds
  induction ds with
  | nil =>
    intro _ r hr
    rcases hr with rfl | ⟨c, cs, rfl, hc⟩
    · rfl
    · simp [takeDigits, hc]
  | cons d ds ih =>
    intro h r hr
    have hd : d.isDigit = true := h d (by simp)
    simp only [List.cons_append, takeDigits, hd, if_true, List.append_eq]
    rw [ih (fun x hx => h x (by simp [hx])) r hr]

/-- Convenient form of the boundary condition of `takeDigits_append`. -/
def headNotDigit : Str → Prop
  | [] => True
  | c :: _ => c.isDigit = false

theorem headNotDigit_cases {r : Str} (h : headNotDigit r) :
    r = [] ∨ ∃ c cs, r = c :: cs ∧ c.isDigit = false := by
  cases r with
  | nil => exact Or.inl rfl
  | cons c cs => exact Or.inr ⟨c, cs, rfl, h⟩

/-- The regex scan skips a position whose head is not a digit. -/
theorem scanUnit_cons_nonDigit {c : Char} (hc : c.isDigit = false) (u cs : Str) :
    scanUnit u (c :: cs) = scanUnit u cs := by
  simp [scanUnit, takeDigits, hc]

/-- The regex scan skips a leading digit run that is not followed by the
unit literal. -/
theorem scanUnit_digits_skip : ∀ (ds : Str), (∀ c ∈ ds, c.isDigit = true) →
    ∀ {u r : Str}, headNotDigit r → u.isPrefixOf r = false →
    scanUnit u (ds ++ r) = scanUnit u r := by
  intro ds
  induction ds with
  | nil => intro _ u r _ _; rfl
  | cons d ds ih =>
    intro h u r hr hpre
    have hall : ∀ c ∈ ds, c.isDigit = true := fun x hx => h x (by simp [hx])
    simp only [List.cons_append, scanUnit, List.append_eq]
    rw [show d :: (ds ++ r) = (d :: ds) ++ r from rfl,
        takeDigits_append (d :: ds) h r (headNotDigit_cases hr)]
    simp only [hpre, List.isEmpty_cons, Bool.not_false, Bool.and_false, if_false]
    exact ih hall hr hpre

/-- The regex scan succeeds at a position starting with a non-empty digit
run followed by the unit literal, capturing the whole run. -/
theorem scanUnit_match {ds : Str} (hne : ds ≠ []) (h : ∀ c ∈ ds, c.isDigit = true)
    {u r : Str} (hr : headNotDigit r) (hpre : u.isPrefixOf r = true) :
    scanUnit u (ds ++ r) = some ds := by
  cases ds with
  | nil => cases hne rfl
  | cons d ds =>
    simp only [List.cons_append, scanUnit, List.append_eq]
    rw [show d :: (ds ++ r) = (d :: ds) ++ r from rfl,
        takeDigits_append (d :: ds) h r (headNotDigit_cases hr)]
    simp [hpre]

theorem pyStrip_nonWs {s : Str} (h : ∀ c ∈ s, pyIsSpace c = false) : pyStrip s = s := by
  have drop1 : ∀ (t : Str), (∀ c ∈ t, pyIsSpace c = false) → t.dropWhile pyIsSpace = t := by
    intro t ht
    cases t with
    | nil => rfl
    | cons a t => simp [List.dropWhile_cons, ht a (by simp)]
  rw [pyStrip, drop1 s h, drop1 s.reverse (by simpa using h)]
  simp

theorem pyInt_digits {ds : Str} (hne : ds ≠ []) (h : ∀ c ∈ ds, c.isDigit = true) :
    pyInt ds = some (digitsVal ds : Int) := by
  have hs : pyStrip ds = ds := pyStrip_nonWs (fun c hc => digit_not_space (h c hc))
  rw [pyInt, hs]
  cases ds with
  | nil => cases hne rfl
  | cons d t =>
    have hd : d.isDigit = true := h d (by simp)
    have h1 : d ≠ '-' := digit_ne hd (by decide)
    have h2 : d ≠ '+' := digit_ne hd (by decide)
    simp only [pyIntCore, h1, h2, if_false]
    have hall : (d :: t).all Char.isDigit = true := List.all_eq_true.mpr h
    have hopt : digitsValOpt (d :: t) = some (digitsVal (d :: t)) := by
      simp [digitsValOpt, hall]
    simp [hopt]

theorem takeWhile_append_stop {p : Char → Bool} : ∀ (ds : Str), (∀ c ∈ ds, p c = true) →
    ∀ {y : Char} {r : Str}, p y = false → (ds ++ y :: r).takeWhile p = ds := by
  intro ds
  induction ds with
  | nil => intro _ y r hy; simp [List.takeWhile_cons, hy]
  | cons d t ih =>
    intro h y r hy
    simp only [List.cons_append, List.takeWhile_cons, h d (by simp), if_true]
    rw [ih (fun c hc => h c (by simp [hc])) hy]

theorem dictGet_dictSet_self {α β : Type} [DecidableEq α] (k : α) (v : β) :
    ∀ (d : List (α × β)), dictGet k (dictSet k v d) = some v := by
  intro d
  induction d with
  | nil => simp [dictSet, dictGet]
  | cons kv rest ih =>
    by_cases hk : kv.1 = k
    · simp [dictSet, dictGet, hk]
    · simp only [dictSet, dictGet, hk, if_false]
      exact ih

theorem dictGet_dictSet_other {α β : Type} [DecidableEq α] {k k' : α} (hne : k' ≠ k) (v : β) :
    ∀ (d : List (α × β)), dictGet k' (dictSet k v d) = dictGet k' d := by
  have hks : ¬k = k' := fun hh => hne hh.symm
  intro d
  induction d with
  | nil => simp [dictSet, dictGet, hks]
  | cons kv rest ih =>
    by_cases hk : kv.1 = k
    · subst hk
      simp [dictSet, dictGet, hks]
    · simp only [dictSet, dictGet, hk, if_false]
      rw [ih]

/-- A line whose whitespace split does not have exactly 7 fields is skipped
by the ARP parser. -/
theorem arpStep_none {fields : List Str} (h : fields.length ≠ 7) : arpStep fields = none := by
  rw [arpStep.eq_def]
  split
  · simp_all
  · rfl

/-- A line whose whitespace split does not have exactly 4 fields is skipped
by the MAC-table parser. -/
theorem macStep_none {fields : List Str} (h : fields.length ≠ 4) : macStep fields = none := by
  rw [macStep.eq_def]
  split
  · simp_all
  · rfl

/-- Removing a wrong-field-count line from the ARP line loop input does not
change its result. -/
theorem arpLines_skip : ∀ (xs : List Str) {bad : Str} (ys : List Str),
    (pySplitWs bad).length ≠ 7 → arpLines (xs ++ bad :: ys) = arpLines (xs ++ ys) := by
  intro xs
  induction xs with
  | nil =>
    intro bad ys h
    simp only [List.nil_append, arpLines, arpStep_none h]
  | cons x xs ih =>
    intro bad ys h
    simp only [List.cons_append, arpLines, List.append_eq]
    rw [ih ys h]

/-- Removing a wrong-field-count line from the MAC-table line loop input
does not change its result. -/
theorem macLines_skip : ∀ (xs : List Str) {bad : Str} (ys : List Str),
    (pySplitWs bad).length ≠ 4 → macLines (xs ++ bad :: ys) = macLines (xs ++ ys) := by
  intro xs
  induction xs with
  | nil =>
    intro bad ys h
    simp only [List.nil_append, macLines, macStep_none h]
  | cons x xs ih =>
    intro bad ys h
    simp only [List.cons_append, macLines, List.append_eq]
    rw [ih ys h]

/-- When no command output carries the error marker, the `cli` loop returns
the accumulated dict with every command mapped to its output. -/
theorem cliFold_ok (device : Str → Str) : ∀ (cmds : List Str),
    (∀ c ∈ cmds, containsSub "Invalid input".data (device c) = false) →
    ∀ (acc : List (Str × Str)), ∃ m, cliFold device acc cmds = Except.ok m ∧
      ∀ x, dictGet x m = if x ∈ cmds then some (device x) else dictGet x acc := by
  intro cmds
  induction cmds with
  | nil =>
    intro _ acc
    exact ⟨acc, rfl, by simp⟩
  | cons c cs ih =>
    intro h acc
    have hc : containsSub "Invalid input".data (device c) = false := h c (by simp)
    obtain ⟨m, hm, hl⟩ := ih (fun x hx => h x (by simp [hx])) (dictSet c (device c) acc)
    refine ⟨m, by simp [cliFold, hc, hm], ?_⟩
    intro x
    rw [hl x]
    by_cases hx : x ∈ cs
    · simp [hx]
    · by_cases hxc : x = c
      · subst hxc
        simp [hx, dictGet_dictSet_self]
      · simp [hx, hxc, dictGet_dictSet_other hxc]

/-- When some command output carries the error marker, the `cli` loop fails
with the message naming an offending command. -/
theorem cliFold_error (device : Str → Str) : ∀ (cmds : List Str),
    (∃ c ∈ cmds, containsSub "Invalid input".data (device c) = true) →
    ∀ (acc : List (Str × Str)), ∃ c ∈ cmds, containsSub "Invalid input".data (device c) = true ∧
      cliFold device acc cmds =
        Except.error ("Unable to execute command \"".data ++ c ++ "\"".data) := by
  intro cmds
  induction cmds with
  | nil =>
    intro h
    rcases h with ⟨c, hc, _⟩
    simp at hc
  | cons c cs ih =>
    intro h acc
    by_cases hc : containsSub "Invalid input".data (device c) = true
    · exact ⟨c, by simp, hc, by simp [cliFold, hc]⟩
    · have hcf : containsSub "Invalid input".data (device c) = false := by
        revert hc
        cases containsSub "Invalid input".data (device c) <;> simp
      have hcs : ∃ x ∈ cs, containsSub "Invalid input".data (device x) = true := by
        rcases h with ⟨y, hy, hmark⟩
        rcases List.mem_cons.mp hy with rfl | hy2
        · exact absurd hmark hc
        · exact ⟨y, hy2, hmark⟩
      obtain ⟨y, hy, hmark, heq⟩ := ih hcs (dictSet c (device c) acc)
      exact ⟨y, by simp [hy], hmark, by simp [cliFold, hcf, heq]⟩

/-- A prefix of a list is a prefix of any extension of it. -/
theorem isPrefixOf_append_ext : ∀ {l1 l2 : Str}, l1.isPrefixOf l2 = true →
    ∀ (t : Str), l1.isPrefixOf (l2 ++ t) = true := by
  intro l1
  induction l1 with
  | nil => intro l2 _ t; simp
  | cons a as ih =>
    intro l2 h t
    cases l2 with
    | nil => simp at h
    | cons b bs =>
      rw [List.cons_append, List.isPrefixOf_cons₂] at *
      simp only [Bool.and_eq_true] at h ⊢
      exact ⟨h.1, ih h.2 t⟩

/-- Two lists differing in their second element are not prefix-related. -/
theorem isPrefixOf_false_snd {b d : Char} (hbd : b ≠ d) (a c : Char) (as bs : Str) :
    List.isPrefixOf (a :: b :: as) (c :: d :: bs) = false := by
  rw [List.isPrefixOf_cons₂, List.isPrefixOf_cons₂]
  simp [hbd]

theorem headNotDigit_cons {c : Char} (h : c.isDigit = false) (cs : Str) :
    headNotDigit (c :: cs) := h

/-- Explicit-argument form of `scanUnit_digits_skip` for rewriting. -/
theorem scanUnit_digits_skipEx (u ds r : Str) (hds : ∀ c ∈ ds, c.isDigit = true)
    (hr : headNotDigit r) (hpre : u.isPrefixOf r = false) :
    scanUnit u (ds ++ r) = scanUnit u r :=
  scanUnit_digits_skip ds hds hr hpre

/-- The regex scan skips any all-non-digit segment: no match can start at a
position whose head is not a digit. -/
theorem scanUnit_skip_nonDigits (u : Str) : ∀ (seg : Str), (∀ c ∈ seg, c.isDigit = false) →
    ∀ (r : Str), scanUnit u (seg ++ r) = scanUnit u r := by
  intro seg
  induction seg with
  | nil => intro _ r; rfl
  | cons c cs ih =>
    intro h r
    rw [List.cons_append, scanUnit_cons_nonDigit (h c (by simp))]
    exact ih (fun x hx => h x (by simp [hx])) r

/-- Explicit-argument form of `scanUnit_match` for rewriting. -/
theorem scanUnit_matchEx (u ds r : Str) (hne : ds ≠ []) (hds : ∀ c ∈ ds, c.isDigit = true)
    (hr : headNotDigit r) (hpre : u.isPrefixOf r = true) :
    scanUnit u (ds ++ r) = some ds :=
  scanUnit_match hne hds hr hpre

/-- Explicit-argument form of `isPrefixOf_append_ext`. -/
theorem isPrefixOf_append_extEx (l1 l2 t : Str) (h : l1.isPrefixOf l2 = true) :
    l1.isPrefixOf (l2 ++ t) = true :=
  isPrefixOf_append_ext h t

/-- Explicit-argument form of `isPrefixOf_false_snd` against an extended
right-hand list. -/
theorem isPrefixOf_false_sndEx (a b : Char) (as : Str) (c d : Char) (bs t : Str) (hbd : b ≠ d) :
    List.isPrefixOf (a :: b :: as) ((c :: d :: bs) ++ t) = false := by
  rw [List.cons_append, List.cons_append]
  exact isPrefixOf_false_snd hbd a c as (bs ++ t)

/-! ## Claims -/

/-- C1 (counterexample): the claim says none of the three internal table
parsers ever raises on a data line whose whitespace-split field count
differs from the expected count, but `get_interfaces` has no field-count
guard: on the 3-field line `1/1 Up Forward` it unpacks `fields[:3]` and
then indexes `fields[4]`, raising `IndexError` (here: returning `.error`),
whichever detail oracles are plugged in. -/
theorem c1_counterexample :
    getInterfaces constDetails constDetails "1/1 Up Forward".data =
      Except.error "IndexError: list index out of range".data := by decide

/-- C1 (amended): the malformed-row tolerance does hold for `get_arp_table`
(expected field count 7) and `get_mac_address_table` (expected field count
4): a line of any other field count is excluded from the result and the
remaining lines, before and after it, parse exactly as if the malformed
line were absent; `get_interfaces` is not tolerant (see the
counterexample). -/
theorem c1_amended :
    (∀ (xs : List Str) (bad : Str) (ys : List Str), (pySplitWs bad).length ≠ 7 →
      arpLines (xs ++ bad :: ys) = arpLines (xs ++ ys)) ∧
    (∀ (xs : List Str) (bad : Str) (ys : List Str), (pySplitWs bad).length ≠ 4 →
      macLines (xs ++ bad :: ys) = macLines (xs ++ ys)) :=
  ⟨fun xs _ ys h => arpLines_skip xs ys h, fun xs _ ys h => macLines_skip xs ys h⟩

/-- Witness for C1 (amended) at a concrete malformed row. -/
theorem c1_amended_witness :
    ((pySplitWs "bad row".data).length ≠ 7 ∧
      arpLines (["hdr line".data] ++ "bad row".data ::
          ["1  10.0.0.1  1122.3344.5566  Dynamic  120  1/1  Valid".data]) =
        arpLines (["hdr line".data] ++
          ["1  10.0.0.1  1122.3344.5566  Dynamic  120  1/1  Valid".data])) ∧
    ((pySplitWs "bad".data).length ≠ 4 ∧
      macLines (["x".data] ++ "bad".data :: ["aabb.ccdd.eeff ethe1 Dynamic 5".data]) =
        macLines (["x".data] ++ ["aabb.ccdd.eeff ethe1 Dynamic 5".data])) :=
  ⟨⟨by decide, c1_amended.1 _ _ _ (by decide)⟩,
   ⟨by decide, c1_amended.2 _ _ _ (by decide)⟩⟩

/-- C2: the claim (and the spec state machine) says an `ip address` line
appearing before any interface header is inert; the code instead reads the
never-assigned local `port` on that line and raises `UnboundLocalError`,
aborting the scan.  This theorem evaluates the embedded parser at the
failing input. -/
theorem c2_addr_before_header_raises :
    getInterfacesIp " ip address 10.0.0.1/24".data =
      Except.error "UnboundLocalError: local variable port referenced before assignment".data := by
  decide

/-- C3 (counterexample): the claim says the probe fails with
`UnsupportedVersion` whenever the parsed major version is not 7 or 8, but
the code caches whatever integer it parses: major version 9 is accepted
without error. -/
theorem c3_counterexample :
    getOsVersion "SW: Version 09.0.00".data = Except.ok 9 ∧ (9 : Int) ≠ 7 ∧ (9 : Int) ≠ 8 := by
  decide

/-- C3 (amended): the probe takes the first output line, the third
whitespace token and the portion before the first dot, parses it as an
integer and accepts it whatever its value (no 7-or-8 validation); a banner
without the expected token structure fails with a generic
`IndexError`/`ValueError` rather than any dedicated `ParseError`. -/
theorem c3_amended :
    (∀ ds : Str, ds ≠ [] → (∀ c ∈ ds, c.isDigit = true) →
      getOsVersion ("SW: Version ".data ++ (ds ++ ".0.00".data)) =
        Except.ok (digitsVal ds : Int)) ∧
    getOsVersion "SW: Version".data = Except.error "IndexError: list index out of range".data ∧
    getOsVersion "".data = Except.error "IndexError: list index out of range".data ∧
    getOsVersion "SW: Version x.0".data =
      Except.error "ValueError: invalid literal for int".data := by
  refine ⟨?_, by decide, by decide, by decide⟩
  intro ds hne h
  have hlit1 : ∀ c ∈ "SW: Version ".data, c ≠ '\n' ∧ c ≠ '\r' := by decide
  have hlit2 : ∀ c ∈ ".0.00".data, c ≠ '\n' ∧ c ≠ '\r' := by decide
  have hnl : ∀ c ∈ ("SW: Version ".data ++ (ds ++ ".0.00".data)), c ≠ '\n' ∧ c ≠ '\r' := by
    intro c hc
    simp only [List.mem_append] at hc
    rcases hc with hc | hc | hc
    · exact hlit1 c hc
    · exact ⟨digit_ne (h c hc) (by decide), digit_ne (h c hc) (by decide)⟩
    · exact hlit2 c hc
  have hsl : splitlines ("SW: Version ".data ++ (ds ++ ".0.00".data)) =
      ["SW: Version ".data ++ (ds ++ ".0.00".data)] :=
    splitlines_noNl hnl (by simp)
  have hws0 : ∀ c ∈ ".0.00".data, pyIsSpace c = false := by decide
  have hws : ∀ c ∈ (ds ++ ".0.00".data), pyIsSpace c = false := by
    intro c hc
    rcases List.mem_append.mp hc with hc | hc
    · exact digit_not_space (h c hc)
    · exact hws0 c hc
  have hsw1 : splitWsAux ("SW: Version ".data ++ (ds ++ ".0.00".data)) [] =
      "SW:".data :: "Version".data :: splitWsAux (ds ++ ".0.00".data) [] := by
    simp [splitWsAux, pyIsSpace]
  have hsw2 : splitWsAux (ds ++ ".0.00".data) [] = [ds ++ ".0.00".data] := by
    simpa using splitWsAux_nonWs (ds ++ ".0.00".data) hws (by simp) []
  have htw : (ds ++ ".0.00".data).takeWhile (fun c => c != '.') = ds := by
    rw [show ".0.00".data = '.' :: "0.00".data from rfl]
    refine takeWhile_append_stop ds ?_ (by decide)
    intro c hc
    simp only [bne_iff_ne, ne_eq, decide_eq_true_eq]
    exact digit_ne (h c hc) (by decide)
  simp only [getOsVersion, hsl, pySplitWs, hsw1, hsw2, htw, pyInt_digits hne h]

/-- Witness for C3 (amended): a major version of 9 flows through the
well-formed-banner case. -/
theorem c3_amended_witness :
    ("9".data ≠ [] ∧ (∀ c ∈ "9".data, c.isDigit = true)) ∧
    getOsVersion ("SW: Version ".data ++ ("9".data ++ ".0.00".data)) =
      Except.ok (digitsVal "9".data : Int) :=
  ⟨⟨by decide, by decide⟩, c3_amended.1 "9".data (by decide) (by decide)⟩

/-- C4: `cli` is strict.  If no command output contains the marker
`Invalid input`, the call returns a dict mapping each command to its
output; if some command output contains the marker, the whole call fails
with the error message naming an offending command. -/
theorem c4_cli_strictness (device : Str → Str) (cmds : List Str) :
    ((∀ c ∈ cmds, containsSub "Invalid input".data (device c) = false) →
      ∃ m, cli device cmds = Except.ok m ∧ ∀ c ∈ cmds, dictGet c m = some (device c)) ∧
    ((∃ c ∈ cmds, containsSub "Invalid input".data (device c) = true) →
      ∃ c ∈ cmds, containsSub "Invalid input".data (device c) = true ∧
        cli device cmds =
          Except.error ("Unable to execute command \"".data ++ c ++ "\"".data)) := by
  constructor
  · intro h
    obtain ⟨m, hm, hl⟩ := cliFold_ok device cmds h []
    refine ⟨m, hm, fun c hc => ?_⟩
    rw [hl c]
    simp [hc]
  · intro h
    exact cliFold_error device cmds h []

/-- A concrete transport oracle: one command answers with the device error
marker, the others answer normally. -/
def cliDevice : Str → Str := fun c =>
  if c = "show bad".data then "Invalid input detected".data else "ok output".data

/-- Witness for C4 at a concrete command list for both directions. -/
theorem c4_witness :
    ((∀ c ∈ ["show ver".data], containsSub "Invalid input".data (cliDevice c) = false) ∧
      (∃ m, cli cliDevice ["show ver".data] = Except.ok m ∧
        ∀ c ∈ ["show ver".data], dictGet c m = some (cliDevice c))) ∧
    ((∃ c ∈ ["show ver".data, "show bad".data],
        containsSub "Invalid input".data (cliDevice c) = true) ∧
      (∃ c ∈ ["show ver".data, "show bad".data],
        containsSub "Invalid input".data (cliDevice c) = true ∧
        cli cliDevice ["show ver".data, "show bad".data] =
          Except.error ("Unable to execute command \"".data ++ c ++ "\"".data))) :=
  ⟨⟨by decide, (c4_cli_strictness cliDevice ["show ver".data]).1 (by decide)⟩,
   ⟨by decide, (c4_cli_strictness cliDevice ["show ver".data, "show bad".data]).2 (by decide)⟩⟩

/-- C5 (counterexample): the claim says `commit_config` with no staged
candidate fails with `ConfigError`; in fact the method performs no staging
check and no error path at all: with `self._merge_cfg` still `None` it
succeeds, forwarding the null candidate to the device and then issuing
`write memory`. -/
theorem c5_counterexample :
    commit_config none =
      Except.ok [DeviceAction.sendConfigSet none, DeviceAction.sendCommand "write memory".data] := by
  decide

/-- C5 (amended): `load_merge_candidate` with both a (truthy) filename and
a (truthy) inline config raises `ValueError` (the spec's `ConfigError`)
before anything else — the staging method performs no device interaction
at all; `commit_config`, however, never checks for a staged candidate and
never raises: it always sends the candidate (even `None`) followed by
`write memory`. -/
theorem c5_amended :
    (∀ (fileLines : Str → List Str) (mergeCfg : Option (List Str)) (fn : Str) (cfg : ConfigArg),
      truthyOptStr (some fn) = true → truthyCfg (some cfg) = true →
      load_merge_candidate fileLines mergeCfg (some fn) (some cfg) =
        Except.error "Cannot simultaneously set filename and config".data) ∧
    (∀ mergeCfg, commit_config mergeCfg =
      Except.ok [DeviceAction.sendConfigSet mergeCfg,
                 DeviceAction.sendCommand "write memory".data]) := by
  constructor
  · intro fileLines mergeCfg fn cfg h1 h2
    simp [load_merge_candidate, h1, h2]
  · intro mergeCfg
    rfl

/-- Witness for C5 (amended) at concrete truthy arguments. -/
theorem c5_amended_witness :
    (truthyOptStr (some "f.cfg".data) = true ∧
      truthyCfg (some (ConfigArg.strArg "hostname x".data)) = true) ∧
    load_merge_candidate (fun _ => []) none (some "f.cfg".data)
        (some (ConfigArg.strArg "hostname x".data)) =
      Except.error "Cannot simultaneously set filename and config".data :=
  ⟨⟨by decide, by decide⟩, c5_amended.1 _ _ _ _ (by decide) (by decide)⟩

/-- C6: the claim says `rx_unicast_packets` holds the `InUnicastPkts`
capture and `tx_unicast_packets` the `OutUnicastPkts` capture, but the
source assigns `rx_unicast_packets` twice (so it ends holding the
`OutUnicastPkts` value, here `7` and not `5`) and never produces a
`tx_unicast_packets` key — an evident copy-paste slip given the
neighbouring octet/multicast/broadcast blocks.  (Counter values are kept
as the captured digit strings, exactly as the source stores them.) -/
theorem c6_unicast_assignment_bug :
    getDetailedCounters "InUnicastPkts 5 OutUnicastPkts 7".data =
      [("rx_unicast_packets".data, "7".data)] ∧
    dictGet "tx_unicast_packets".data
        (getDetailedCounters "InUnicastPkts 5 OutUnicastPkts 7".data) = none := by
  decide

/-- C7 (counterexample): the claim says a 7-field row with an unparsable
age still yields an entry with sentinel age `-1`; the code instead raises
`ValueError` and the whole call fails. -/
theorem c7_counterexample :
    getArpTable 8 "h1\nh2\nh3\n1  10.0.0.1  1122.3344.5566  Dynamic  abc  1/1  Valid\n".data =
      Except.error "Unable to convert age value to float: abc".data := by
  decide

/-- C7 (amended): a well-formed 7-field row whose age field does not parse
as a float is fatal to the whole `get_arp_table` call (a raised
`ValueError`), wherever the row sits in the output; no `-1` sentinel is
ever produced for an unparsable age. -/
theorem c7_amended : ∀ (xs ys : List Str) (bad n a m t g i st : Str),
    pySplitWs bad = [n, a, m, t, g, i, st] → pyFloat g = none →
    ∃ e, arpLines (xs ++ bad :: ys) = Except.error e := by
  intro xs
  induction xs with
  | nil =>
    intro ys bad n a m t g i st h1 h2
    refine ⟨"Unable to convert age value to float: ".data ++ g, ?_⟩
    simp [arpLines, h1, arpStep, h2]
  | cons x xs ih =>
    intro ys bad n a m t g i st h1 h2
    obtain ⟨e, he⟩ := ih ys bad n a m t g i st h1 h2
    rcases hstep : arpStep (pySplitWs x) with _ | exc
    · exact ⟨e, by simp [arpLines, hstep, he]⟩
    · rcases exc with e2 | entry
      · exact ⟨e2, by simp [arpLines, hstep]⟩
      · exact ⟨e, by simp [arpLines, hstep, he, Except.map]⟩

/-- Witness for C7 (amended) at a concrete row with age `zzz`. -/
theorem c7_amended_witness :
    (pySplitWs "1 10.0.0.1 1122.3344.5566 Dynamic zzz 1/1 Valid".data =
      ["1".data, "10.0.0.1".data, "1122.3344.5566".data, "Dynamic".data,
       "zzz".data, "1/1".data, "Valid".data] ∧
     pyFloat "zzz".data = none) ∧
    ∃ e, arpLines (["hdr".data] ++
        "1 10.0.0.1 1122.3344.5566 Dynamic zzz 1/1 Valid".data :: []) = Except.error e :=
  ⟨⟨by decide, by decide⟩,
   c7_amended ["hdr".data] [] "1 10.0.0.1 1122.3344.5566 Dynamic zzz 1/1 Valid".data
     "1".data "10.0.0.1".data "1122.3344.5566".data "Dynamic".data "zzz".data "1/1".data
     "Valid".data (by decide) (by decide)⟩

/-- C8: `get_arp_table` drops exactly 2 leading output lines when the
cached version is 7 and exactly 3 when it is 8, for every raw output; and
the three-header scenario row under version 8 yields exactly the one entry
with ip `10.0.0.1`, mac `11:22:33:44:55:66`, interface `1/1` and age 120. -/
theorem c8_header_skip_and_scenario :
    (∀ raw : Str, getArpTable 7 raw = arpLines ((splitlines raw).drop 2)) ∧
    (∀ raw : Str, getArpTable 8 raw = arpLines ((splitlines raw).drop 3)) ∧
    getArpTable 8 "h1\nh2\nh3\n1  10.0.0.1  1122.3344.5566  Dynamic  120  1/1  Valid\n".data =
      Except.ok [{ interface := "1/1".data, mac := "11:22:33:44:55:66".data,
                   ip := "10.0.0.1".data, age := 120 }] := by
  refine ⟨fun raw => ?_, fun raw => ?_, by decide⟩
  · simp [getArpTable]
  · simp [getArpTable]

/-- C9 (counterexample): the claim reads the unit off the token's last
character, but the code reads `speed[-4]`.  The standard token `100Mbps`
ends in `s` — per the claim a non-`M` unit, so the claim predicts
`100 * 1000`; the code parses it as 100 Mbps. -/
theorem c9_counterexample :
    "100Mbps".data.getLast? = some 's' ∧
    calcSpeed "100Mbps".data = Except.ok 100 ∧
    calcSpeed "100Mbps".data ≠ Except.ok (100 * 1000) := by
  decide

/-- C9 (amended): the unit is the character four positions from the end
(the head of a 4-character unit suffix such as `Mbps`/`Gbps`): for every
token consisting of a non-empty digit prefix followed by a 4-character
suffix, the parsed speed is the prefix value when the suffix starts with
`M`, and 1000 times the prefix value otherwise. -/
theorem c9_amended : ∀ (ds : Str) (c : Char) (u3 : Str), ds ≠ [] →
    (∀ x ∈ ds, x.isDigit = true) → u3.length = 3 →
    calcSpeed (ds ++ c :: u3) =
      Except.ok (if c = 'M' then (digitsVal ds : Int) else (digitsVal ds : Int) * 1000) := by
  intro ds c u3 hne h hu
  have hlen : (ds ++ c :: u3).length = ds.length + 4 := by
    simp [List.length_append, hu]
  have hsub : (ds ++ c :: u3).length - 4 = ds.length := by omega
  have hget : (ds ++ c :: u3).getD ds.length ' ' = c := by
    rw [List.getD_append_right ds (c :: u3) ' ' ds.length (Nat.le_refl _)]
    simp [List.getD]
  have htake : (ds ++ c :: u3).take ds.length = ds := List.take_left ds (c :: u3)
  rw [calcSpeed]
  rw [if_neg (by omega)]
  rw [hsub, hget, htake, pyInt_digits hne h]

/-- Witness for C9 (amended) at the token `10Gbps`. -/
theorem c9_amended_witness :
    ("10".data ≠ [] ∧ (∀ x ∈ "10".data, x.isDigit = true) ∧ "bps".data.length = 3) ∧
    calcSpeed ("10".data ++ 'G' :: "bps".data) =
      Except.ok (if 'G' = 'M' then (digitsVal "10".data : Int)
                 else (digitsVal "10".data : Int) * 1000) :=
  ⟨⟨by decide, by decide, by decide⟩,
   c9_amended "10".data 'G' "bps".data (by decide) (by decide) (by decide)⟩

/-- Rendering of a list of duration phrases (a digit string paired with
its unit literal such as ` days`) the way the device prints them,
single-space separated: e.g. `3 days 36 minutes 18 seconds`. -/
def renderPhrases : List (Str × Str) → Str
  | [] => []
  | (ds, u) :: [] => ds ++ u
  | (ds, u) :: rest => ds ++ (u ++ (' ' :: renderPhrases rest))

theorem headNotDigit_append {x : Str} (hne : x ≠ []) (h : headNotDigit x) (y : Str) :
    headNotDigit (x ++ y) := by
  cases x with
  | nil => cases hne rfl
  | cons c cs => exact h

theorem isPrefixOf_self_append (p t : Str) : p.isPrefixOf (p ++ t) = true := by
  simp [List.isPrefixOf_iff_prefix]

theorem isPrefixOf_refl (p : Str) : p.isPrefixOf p = true := by
  simp [List.isPrefixOf_iff_prefix]

/-- The duration regex scan over a well-formed phrase rendering: it returns
the digit string of the phrase carrying the scanned unit literal, and
`none` when no phrase carries it.  Well-formedness: every digit string is
non-empty and all digits; every unit literal is non-empty, starts with a
non-digit and contains no digits; and the scanned literal is a prefix of
no other unit literal however extended. -/
theorem scan_render (p : Str) : ∀ (L : List (Str × Str)),
    (∀ q ∈ L, q.1 ≠ [] ∧ (∀ c ∈ q.1, c.isDigit = true)) →
    (∀ q ∈ L, q.2 ≠ [] ∧ headNotDigit q.2 ∧ (∀ c ∈ q.2, c.isDigit = false)) →
    (∀ q ∈ L, q.2 ≠ p → ∀ t, p.isPrefixOf (q.2 ++ t) = false) →
    scanUnit p (renderPhrases L) = (L.find? (fun q => q.2 == p)).map (fun q => q.1) := by
  intro L
  induction L with
  | nil => intro _ _ _; rfl
  | cons q rest ih =>
    intro h1 h2 h3
    obtain ⟨ds, u⟩ := q
    obtain ⟨hdne, hdd⟩ := h1 (ds, u) (by simp)
    obtain ⟨hune, huh, hud⟩ := h2 (ds, u) (by simp)
    have ih2 := ih (fun x hx => h1 x (by simp [hx])) (fun x hx => h2 x (by simp [hx]))
      (fun x hx => h3 x (by simp [hx]))
    by_cases hup : u = p
    · subst hup
      cases rest with
      | nil =>
        rw [show renderPhrases [(ds, u)] = ds ++ u from rfl]
        rw [scanUnit_match hdne hdd huh (isPrefixOf_refl u)]
        simp [List.find?]
      | cons r2 rest2 =>
        rw [show renderPhrases ((ds, u) :: r2 :: rest2) =
          ds ++ (u ++ (' ' :: renderPhrases (r2 :: rest2))) from rfl]
        rw [scanUnit_match hdne hdd (headNotDigit_append hune huh _)
          (isPrefixOf_self_append u (' ' :: renderPhrases (r2 :: rest2)))]
        simp [List.find?]
    · cases rest with
      | nil =>
        rw [show renderPhrases [(ds, u)] = ds ++ u from rfl]
        rw [scanUnit_digits_skip ds hdd huh (by simpa using h3 (ds, u) (by simp) hup [])]
        have hu0 : scanUnit p u = none := by simpa using scanUnit_skip_nonDigits p u hud []
        rw [hu0, List.find?_cons_of_neg _ (by simp [hup])]
        rfl
      | cons r2 rest2 =>
        rw [show renderPhrases ((ds, u) :: r2 :: rest2) =
          ds ++ (u ++ (' ' :: renderPhrases (r2 :: rest2))) from rfl]
        rw [scanUnit_digits_skip ds hdd (headNotDigit_append hune huh _)
          (h3 (ds, u) (by simp) hup (' ' :: renderPhrases (r2 :: rest2)))]
        rw [scanUnit_skip_nonDigits p u hud (' ' :: renderPhrases (r2 :: rest2))]
        rw [scanUnit_cons_nonDigit (show (' ').isDigit = false by decide) p
          (renderPhrases (r2 :: rest2))]
        rw [List.find?_cons_of_neg _ (by simp [hup]), ih2]

/-- The phrase list for an optional subset of the four duration units, in
the device's canonical order: a present unit contributes its digit string
paired with its unit literal. -/
def durPhrases (oD oH oM oS : Option Str) : List (Str × Str) :=
  (match oD with | some d => [(d, " days".data)] | none => []) ++
  ((match oH with | some d => [(d, " hours".data)] | none => []) ++
   ((match oM with | some d => [(d, " minutes".data)] | none => []) ++
    (match oS with | some d => [(d, " seconds".data)] | none => [])))

theorem durPhrases_mem {oD oH oM oS : Option Str} {q : Str × Str}
    (hq : q ∈ durPhrases oD oH oM oS) :
    (∃ d, oD = some d ∧ q = (d, " days".data)) ∨
    (∃ d, oH = some d ∧ q = (d, " hours".data)) ∨
    (∃ d, oM = some d ∧ q = (d, " minutes".data)) ∨
    (∃ d, oS = some d ∧ q = (d, " seconds".data)) := by
  rcases oD with _ | d <;> rcases oH with _ | h0 <;> rcases oM with _ | m0 <;>
    rcases oS with _ | s0 <;> simp_all [durPhrases]

/-- C10: the duration parser extracts each of days, hours, minutes and
seconds independently — each unit optional, defaulting to 0 — and returns
the exact unit-weighted sum in seconds, except that a total of exactly
zero (including the empty all-units-absent rendering) yields the sentinel
`-1`, never 0.  The general conjunct quantifies over every subset of the
four units (as four `Option` digit strings) rendered the way the device
prints them; `renderPhrases (durPhrases (some "3") none (some "36")
(some "18"))` is literally `3 days 36 minutes 18 seconds`, as the fourth
conjunct checks.  The remaining conjuncts evaluate the source's own
comment examples and a no-matching-unit string. -/
theorem c10_duration_parsing :
    (∀ oD oH oM oS : Option Str,
      (∀ ds, oD = some ds → ds ≠ [] ∧ ∀ c ∈ ds, c.isDigit = true) →
      (∀ ds, oH = some ds → ds ≠ [] ∧ ∀ c ∈ ds, c.isDigit = true) →
      (∀ ds, oM = some ds → ds ≠ [] ∧ ∀ c ∈ ds, c.isDigit = true) →
      (∀ ds, oS = some ds → ds ≠ [] ∧ ∀ c ∈ ds, c.isDigit = true) →
      parsePortChange (renderPhrases (durPhrases oD oH oM oS)) =
        (if ((oS.map digitsVal).getD 0 : Int) + ((oM.map digitsVal).getD 0 : Int) * 60 +
            ((oH.map digitsVal).getD 0 : Int) * 60 * 60 +
            ((oD.map digitsVal).getD 0 : Int) * 24 * 60 * 60 = 0 then -1
         else ((oS.map digitsVal).getD 0 : Int) + ((oM.map digitsVal).getD 0 : Int) * 60 +
            ((oH.map digitsVal).getD 0 : Int) * 60 * 60 +
            ((oD.map digitsVal).getD 0 : Int) * 24 * 60 * 60)) ∧
    parsePortChange "632 days 18 hours 20 minutes 40 seconds".data = 54670840 ∧
    parsePortChange "3 days 36 minutes 18 seconds".data = 261378 ∧
    renderPhrases (durPhrases (some "3".data) none (some "36".data) (some "18".data)) =
      "3 days 36 minutes 18 seconds".data ∧
    parsePortChange "1 seconds".data = 1 ∧
    parsePortChange "up".data = -1 := by
  refine ⟨?_, by decide, by decide, by decide, by decide, by decide⟩
  intro oD oH oM oS hD hH hM hS
  have hL1 : ∀ q ∈ durPhrases oD oH oM oS, q.1 ≠ [] ∧ (∀ c ∈ q.1, c.isDigit = true) := by
    intro q hq
    rcases durPhrases_mem hq with ⟨d, hd, rfl⟩ | ⟨d, hd, rfl⟩ | ⟨d, hd, rfl⟩ | ⟨d, hd, rfl⟩
    · exact hD d hd
    · exact hH d hd
    · exact hM d hd
    · exact hS d hd
  have hL2 : ∀ q ∈ durPhrases oD oH oM oS,
      q.2 ≠ [] ∧ headNotDigit q.2 ∧ (∀ c ∈ q.2, c.isDigit = false) := by
    intro q hq
    rcases durPhrases_mem hq with ⟨d, _, rfl⟩ | ⟨d, _, rfl⟩ | ⟨d, _, rfl⟩ | ⟨d, _, rfl⟩
    · exact ⟨(by decide : (" days".data : Str) ≠ []), headNotDigit_cons (by decide) _,
        (by decide : ∀ c ∈ (" days".data : Str), c.isDigit = false)⟩
    · exact ⟨(by decide : (" hours".data : Str) ≠ []), headNotDigit_cons (by decide) _,
        (by decide : ∀ c ∈ (" hours".data : Str), c.isDigit = false)⟩
    · exact ⟨(by decide : (" minutes".data : Str) ≠ []), headNotDigit_cons (by decide) _,
        (by decide : ∀ c ∈ (" minutes".data : Str), c.isDigit = false)⟩
    · exact ⟨(by decide : (" seconds".data : Str) ≠ []), headNotDigit_cons (by decide) _,
        (by decide : ∀ c ∈ (" seconds".data : Str), c.isDigit = false)⟩
  have hL3 : ∀ p : Str,
      (p = " days".data ∨ p = " hours".data ∨ p = " minutes".data ∨ p = " seconds".data) →
      ∀ q ∈ durPhrases oD oH oM oS, q.2 ≠ p → ∀ t, p.isPrefixOf (q.2 ++ t) = false := by
    intro p hp q hq hne t
    rcases durPhrases_mem hq with ⟨d, _, rfl⟩ | ⟨d, _, rfl⟩ | ⟨d, _, rfl⟩ | ⟨d, _, rfl⟩ <;>
      rcases hp with rfl | rfl | rfl | rfl <;>
      first
        | exact absurd rfl hne
        | exact isPrefixOf_false_sndEx _ _ _ _ _ _ t (by decide)
  have s1 := scan_render " days".data (durPhrases oD oH oM oS) hL1 hL2 (hL3 _ (Or.inl rfl))
  have s2 := scan_render " hours".data (durPhrases oD oH oM oS) hL1 hL2
    (hL3 _ (Or.inr (Or.inl rfl)))
  have s3 := scan_render " minutes".data (durPhrases oD oH oM oS) hL1 hL2
    (hL3 _ (Or.inr (Or.inr (Or.inl rfl))))
  have s4 := scan_render " seconds".data (durPhrases oD oH oM oS) hL1 hL2
    (hL3 _ (Or.inr (Or.inr (Or.inr rfl))))
  simp only [parsePortChange, s1, s2, s3, s4]
  rcases oD with _ | d <;> rcases oH with _ | h0 <;> rcases oM with _ | m0 <;>
    rcases oS with _ | s0 <;> simp [durPhrases]

/-- Witness for C10 at the mixed subset days, minutes, seconds with hours
absent — the source comment's own example shape. -/
theorem c10_witness :
    ((∀ ds : Str, (some "3".data : Option Str) = some ds →
        ds ≠ [] ∧ ∀ c ∈ ds, c.isDigit = true) ∧
     (∀ ds : Str, (none : Option Str) = some ds → ds ≠ [] ∧ ∀ c ∈ ds, c.isDigit = true) ∧
     (∀ ds : Str, (some "36".data : Option Str) = some ds →
        ds ≠ [] ∧ ∀ c ∈ ds, c.isDigit = true) ∧
     (∀ ds : Str, (some "18".data : Option Str) = some ds →
        ds ≠ [] ∧ ∀ c ∈ ds, c.isDigit = true)) ∧
    parsePortChange (renderPhrases (durPhrases (some "3".data) none
        (some "36".data) (some "18".data))) =
      (if (((some "18".data : Option Str).map digitsVal).getD 0 : Int) +
          (((some "36".data : Option Str).map digitsVal).getD 0 : Int) * 60 +
          (((none : Option Str).map digitsVal).getD 0 : Int) * 60 * 60 +
          (((some "3".data : Option Str).map digitsVal).getD 0 : Int) * 24 * 60 * 60 = 0 then -1
       else (((some "18".data : Option Str).map digitsVal).getD 0 : Int) +
          (((some "36".data : Option Str).map digitsVal).getD 0 : Int) * 60 +
          (((none : Option Str).map digitsVal).getD 0 : Int) * 60 * 60 +
          (((some "3".data : Option Str).map digitsVal).getD 0 : Int) * 24 * 60 * 60) := by
  have hA : ∀ ds : Str, (some "3".data : Option Str) = some ds →
      ds ≠ [] ∧ ∀ c ∈ ds, c.isDigit = true := by
    intro ds hds
    cases hds
    exact ⟨by decide, by decide⟩
  have hB : ∀ ds : Str, (none : Option Str) = some ds →
      ds ≠ [] ∧ ∀ c ∈ ds, c.isDigit = true := by
    intro ds hds
    exact absurd hds (by simp)
  have hC : ∀ ds : Str, (some "36".data : Option Str) = some ds →
      ds ≠ [] ∧ ∀ c ∈ ds, c.isDigit = true := by
    intro ds hds
    cases hds
    exact ⟨by decide, by decide⟩
  have hD : ∀ ds : Str, (some "18".data : Option Str) = some ds →
      ds ≠ [] ∧ ∀ c ∈ ds, c.isDigit = true := by
    intro ds hds
    cases hds
    exact ⟨by decide, by decide⟩
  exact ⟨⟨hA, hB, hC, hD⟩, c10_duration_parsing.1 (some "3".data) none
    (some "36".data) (some "18".data) hA hB hC hD⟩

end Fastiron
